import Mathlib

/-!
Verification of the horgh/irc repository: a shallow embedding of the IRC
message codec (parse.go), the TS6 ID assignment and local-user actions
(user_client.go), the connection send queue (client.go), and the server-link
command handlers (ircd/local_server.go), together with theorems settling the
frozen specification claims.

Strings are modelled as `List Char` (Go byte strings over ASCII); Go maps are
modelled as association lists; Go panics and error returns are modelled with
explicit outcome values.
-/

set_option maxRecDepth 4096

/-- Byte strings of the Go source, modelled as lists of characters. -/
abbrev Str := List Char

/-- `irc.Message` from parse.go: an IRC protocol message.
`pfx` models the `Prefix` field (optional, may be empty). -/
structure Message where
  pfx : Str
  command : Str
  params : List Str
deriving DecidableEq, Repr

/-- `MaxLineLength` from parse.go (includes CRLF). -/
def MaxLineLength : Nat := 512

/-- Character test used by `Message.Encode`: Go
`strings.IndexAny(param, ": ") != -1`. -/
def hasColonOrSpace (p : Str) : Bool :=
  p.any fun c => c = ':' || c = ' '

/-- The parameter-encoding loop of `Message.Encode` (parse.go): each parameter
is emitted as ` param`, except that a parameter containing `:` or a space, or
an empty parameter, is emitted as ` :param` and must be the last parameter
(otherwise Encode errors, modelled as `none`). -/
def encodeParamList : List Str → Option Str
  | [] => some []
  | p :: rest =>
    if hasColonOrSpace p || p.isEmpty then
      if rest.isEmpty then some (' ' :: ':' :: p) else none
    else
      (encodeParamList rest).map fun s => ' ' :: p ++ s

/-- `Message.Encode` from parse.go: prefix (when nonempty) as `:prefix `, then
the command, then the encoded parameters, then CRLF. Returns `none` where the
Go code returns an error (misplaced `:`/space/empty parameter, or encoded
length over `MaxLineLength`). -/
def Message.Encode (m : Message) : Option Str :=
  match encodeParamList m.params with
  | none => none
  | some ps =>
    let s := (if m.pfx.isEmpty then [] else ':' :: m.pfx ++ [' '])
      ++ m.command ++ ps ++ ['\r', '\n']
    if MaxLineLength < s.length then none else some s

/-- The scan loop of `parsePrefix` (parse.go): consume characters up to the
first space, rejecting NUL, CR and LF; fail if no space is found. Returns the
consumed characters and the remainder after the space. -/
def parsePfxLoop : Str → Option (Str × Str)
  | [] => none
  | c :: cs =>
    if c = ' ' then some ([], cs)
    else if c = '\x00' || c = '\n' || c = '\r' then none
    else (parsePfxLoop cs).map fun pr => (c :: pr.1, pr.2)

/-- `parsePrefix` from parse.go: the line must start with `:` (Go tests
`line[0] != ':'`); the prefix runs to the first space and must be
nonempty. -/
def parsePfx (l : Str) : Option (Str × Str) :=
  match l with
  | [] => none
  | c :: cs =>
    if c ≠ ':' then none
    else
      match parsePfxLoop cs with
      | none => none
      | some (p, rest) => if p.isEmpty then none else some (p, rest)

/-- Character class accepted inside a command by `parseCommand` (parse.go):
ASCII digits 48–57 or bytes 65–122 (which Go comments call "letters"). -/
def isCommandChar (c : Char) : Bool :=
  (48 ≤ c.toNat && c.toNat ≤ 57) || (65 ≤ c.toNat && c.toNat ≤ 122)

/-- ASCII upper-casing as applied by Go `strings.ToUpper` to ASCII bytes. -/
def toUpperChar (c : Char) : Char :=
  if 97 ≤ c.toNat && c.toNat ≤ 122 then Char.ofNat (c.toNat - 32) else c

/-- The scan loop of `parseCommand` (parse.go): consume digits and letters;
the command must be terminated by a space or CR (reaching the end of the line
leaves an empty remainder, reported by the caller). Any other terminator is an
error. -/
def parseCommandLoop : Str → Option (Str × Str)
  | [] => some ([], [])
  | c :: cs =>
    if isCommandChar c then
      (parseCommandLoop cs).map fun pr => (c :: pr.1, pr.2)
    else if c = ' ' || c = '\r' then some ([], c :: cs)
    else none

/-- `parseCommand` from parse.go: a nonempty run of command characters,
upper-cased with `strings.ToUpper`. -/
def parseCommand (l : Str) : Option (Str × Str) :=
  match parseCommandLoop l with
  | none => none
  | some (cmd, rest) =>
    if cmd.isEmpty then none else some (cmd.map toUpperChar, rest)

/-- Character that terminates a trailing parameter in parse.go: NUL, CR, LF. -/
def isParamEnd (c : Char) : Bool :=
  c = '\x00' || c = '\r' || c = '\n'

/-- `parseParam` from parse.go: the Go code requires a leading space, then
either ` :trailing` (runs to NUL/CR/LF, may be empty) or a nonempty `middle`
(runs to NUL/CR/LF/space), both scanned from the character after the
space. -/
def parseParam (l : Str) : Option (Str × Str) :=
  match l with
  | [] => none
  | c :: cs =>
    if c ≠ ' ' then none
    else
      match cs with
      | [] => none
      | c2 :: cs2 =>
        if c2 = ':' then
          if cs2.isEmpty then none
          else
            some (cs2.takeWhile fun ch => !isParamEnd ch,
              cs2.dropWhile fun ch => !isParamEnd ch)
        else
          let p := cs.takeWhile fun ch => !(isParamEnd ch || ch = ' ')
          if p.isEmpty then none
          else some (p, cs.dropWhile fun ch => !(isParamEnd ch || ch = ' '))

/-- `parseParamLast` from parse.go: a leading space; an optional `:`; then
the parameter runs to NUL/CR/LF and may be empty. -/
def parseParamLast (l : Str) : Option (Str × Str) :=
  match l with
  | [] => none
  | c :: cs =>
    if c ≠ ' ' then none
    else
      match cs with
      | [] => none
      | c2 :: cs2 =>
        if c2 = ':' then
          if cs2.isEmpty then none
          else
            some (cs2.takeWhile fun ch => !isParamEnd ch,
              cs2.dropWhile fun ch => !isParamEnd ch)
        else
          some (cs.takeWhile fun ch => !isParamEnd ch,
            cs.dropWhile fun ch => !isParamEnd ch)

/-- The loop of `parseParams` (parse.go). `k` counts how many more parameters
may be parsed with `parseParam` before `parseParamLast` takes over: Go tests
`len(params) < 14`, so the loop starts with `k = 14`. Running off the end of
the line without leaving parameter position is an error. -/
def parseParamsLoop : Nat → Str → Option (List Str × Str)
  | _, [] => none
  | k, c :: cs =>
    if c ≠ ' ' then some ([], c :: cs)
    else
      match k with
      | 0 => (parseParamLast (c :: cs)).map fun pr => ([pr.1], pr.2)
      | k + 1 =>
        match parseParam (c :: cs) with
        | none => none
        | some (p, rest) =>
          match parseParamsLoop k rest with
          | none => none
          | some (ps, rest2) => some (p :: ps, rest2)

/-- `ParseMessage` from parse.go: length limit, optional prefix, command,
parameters, and a final check that exactly CRLF remains. The Go code indexes
`line[0]` unconditionally (lines handed to it always end in `\n`); the empty
line is mapped to `none` here. -/
def ParseMessage (line : Str) : Option Message :=
  if MaxLineLength < line.length then none
  else
    match line with
    | [] => none
    | c0 :: _ =>
      let step1 : Option (Str × Str) :=
        if c0 = ':' then
          match parsePfx line with
          | none => none
          | some (p, rest) => if rest.isEmpty then none else some (p, rest)
        else some ([], line)
      match step1 with
      | none => none
      | some (pfx, rest) =>
        match parseCommand rest with
        | none => none
        | some (cmd, rest2) =>
          if rest2.isEmpty then none
          else
            match parseParamsLoop 14 rest2 with
            | none => none
            | some (ps, rest3) =>
              if rest3 = ['\r', '\n'] then
                some { pfx := pfx, command := cmd, params := ps }
              else none

/-- The base-26 fill loop of `UserClient.getTS6ID` (user_client.go): starting
from buffer `AAAAAA` at position 5, write `id % 26` as a letter and shift
right while `id >= 26`, then write the final digit. -/
def ts6loop (id : Nat) (pos : Nat) (buf : Str) : Str :=
  if h : 26 ≤ id then
    ts6loop (id / 26) (pos - 1) (buf.set pos (Char.ofNat (id % 26 + 65)))
  else
    buf.set pos (Char.ofNat (id + 65))
termination_by id
decreasing_by exact Nat.div_lt_self (by omega) (by omega)

/-- `UserClient.getTS6ID` (user_client.go): reject connection IDs at or above
26^6 = 308915776, otherwise produce the 6-character base-26 string over A–Z. -/
def getTS6ID (id : Nat) : Option Str :=
  if 308915776 ≤ id then none
  else some (ts6loop id 5 (List.replicate 6 'A'))

/-- Specification view of the encoding: digit `j` (big-endian, `j < 6`) of
`id` in base 26. -/
def ts6Digit (id j : Nat) : Nat := id / 26 ^ (5 - j) % 26

/-- Specification view of the encoding: the six base-26 digits of `id` as
letters A–Z. -/
def ts6Chars (id : Nat) : Str :=
  (List.range 6).map fun j => Char.ofNat (ts6Digit id j + 65)

/-- Base-26 decoding of a letter string, inverse to `ts6Chars`. -/
def ts6Decode (s : Str) : Nat :=
  s.foldl (fun acc c => acc * 26 + (c.toNat - 65)) 0

/-- A 6-character string over the uppercase letters A–Z. -/
def isSixLetters (s : Str) : Bool :=
  s.length = 6 && s.all fun c => 65 ≤ c.toNat && c.toNat ≤ 90

/-- Proof helper: the value of a big-endian base-26 digit list. -/
def natFromDigits (l : List Nat) : Nat :=
  l.foldl (fun acc d => acc * 26 + d) 0

/-- Proof helper: the `k` big-endian base-26 digits of `n`. -/
def natDigits (k n : Nat) : List Nat :=
  (List.range k).map fun j => n / 26 ^ (k - 1 - j) % 26

/-- The send-queue-relevant state of a `Client` (client.go): the
`SendQueueExceeded` flag and the buffered write channel with its capacity
(32768 in `NewClient`). -/
structure ClientQ where
  sendQueueExceeded : Bool
  writeChan : List Message
  cap : Nat
deriving DecidableEq

/-- `Client.maybeQueueMessage` (client.go): if the send queue was already
exceeded, drop; otherwise a non-blocking channel send — append when the
buffer has room, else set `SendQueueExceeded` and drop. -/
def maybeQueueMessage (c : ClientQ) (m : Message) : ClientQ :=
  if c.sendQueueExceeded then c
  else if c.writeChan.length < c.cap then
    { c with writeChan := c.writeChan ++ [m] }
  else
    { c with sendQueueExceeded := true }

/-- ASCII digit. -/
def isDigitChar (c : Char) : Bool := 48 ≤ c.toNat && c.toNat ≤ 57

/-- ASCII uppercase letter. -/
def isUpperChar (c : Char) : Bool := 65 ≤ c.toNat && c.toNat ≤ 90

/-- ASCII lower-casing (the case a fold maps to). -/
def toLowerChar (c : Char) : Char :=
  if 65 ≤ c.toNat && c.toNat ≤ 90 then Char.ofNat (c.toNat + 32) else c

/-- Modelled from the spec: `isValidSID` (ircd, not under src/) — "SID format:
3 chars, first a digit, remaining alphanumeric uppercase". -/
def isValidSID : Str → Bool
  | [a, b, c] =>
    isDigitChar a && (isDigitChar b || isUpperChar b)
      && (isDigitChar c || isUpperChar c)
  | _ => false

/-- Modelled from the spec: `isValidUID` (ircd, not under src/) — "UID format:
SID + 6 uppercase-letter sequence". -/
def isValidUID (s : Str) : Bool :=
  s.length = 9 && isValidSID (s.take 3) && (s.drop 3).all isUpperChar

/-- Modelled from the spec: `canonicalizeNick` (ircd, not under src/) — "the
case-folded form of a nickname used as its unique lookup key". -/
def canonicalizeNick (s : Str) : Str := s.map toLowerChar

/-- Modelled from the spec: `canonicalizeChannel` (ircd, not under src/) —
channels are keyed by canonical (case-folded) name. -/
def canonicalizeChannel (s : Str) : Str := s.map toLowerChar

/-- Modelled from the spec: `isValidNick` (ircd, not under src/) — a format
check against the configured max nick length; modelled as a nonempty string
of at most `maxLen` letters and digits not starting with a digit. -/
def isValidNick (maxLen : Nat) (s : Str) : Bool :=
  !s.isEmpty && s.length ≤ maxLen
    && s.all (fun c => isDigitChar c || isUpperChar c || isUpperChar (toUpperChar c))
    && !isDigitChar (s.getD 0 'A')

/-- Modelled from the spec: `isValidUser` (ircd, not under src/) — an ident
format check; modelled as nonempty, at most `maxLen` characters, no spaces
and no NUL/CR/LF. -/
def isValidUser (maxLen : Nat) (s : Str) : Bool :=
  !s.isEmpty && s.length ≤ maxLen
    && s.all fun c => !(c = ' ' || c = '\x00' || c = '\r' || c = '\n')

/-- Modelled from the spec: `isValidRealName` (ircd, not under src/) —
modelled as containing no NUL/CR/LF. -/
def isValidRealName (s : Str) : Bool :=
  s.all fun c => !(c = '\x00' || c = '\r' || c = '\n')

/-- Modelled from the spec: `isNumericCommand` (ircd, not under src/) — a
command of 3 digits. -/
def isNumericCommand (s : Str) : Bool := s.length = 3 && s.all isDigitChar

/-- Accumulate a nonempty run of decimal digits (Go `strconv.ParseInt`
digit scan). -/
def decDigits? (s : Str) : Option Nat :=
  if s.isEmpty || !s.all isDigitChar then none
  else some (s.foldl (fun acc c => acc * 10 + (c.toNat - 48)) 0)

/-- Go `strconv.ParseInt(s, 10, bits)`: optional sign, decimal digits, and a
range check against the signed `bits`-bit range. -/
def parseDecInt (bits : Nat) (s : Str) : Option Int :=
  match s with
  | '+' :: rest =>
    (decDigits? rest).bind fun n =>
      if n ≤ 2 ^ (bits - 1) - 1 then some (n : Int) else none
  | '-' :: rest =>
    (decDigits? rest).bind fun n =>
      if n ≤ 2 ^ (bits - 1) then some (-(n : Int)) else none
  | _ =>
    (decDigits? s).bind fun n =>
      if n ≤ 2 ^ (bits - 1) - 1 then some (n : Int) else none

/-- Association-list lookup, modelling Go map indexing (`v, ok := m[k]`). -/
def lookupA {α : Type} (l : List (Str × α)) (k : Str) : Option α :=
  match l with
  | [] => none
  | (k2, v) :: rest => if k2 = k then some v else lookupA rest k

/-- Association-list insertion, modelling Go map assignment (`m[k] = v`):
replaces the binding if the key is present, appends it otherwise. -/
def insertA {α : Type} (l : List (Str × α)) (k : Str) (v : α) :
    List (Str × α) :=
  match l with
  | [] => [(k, v)]
  | (k2, v2) :: rest =>
    if k2 = k then (k, v) :: rest else (k2, v2) :: insertA rest k v

/-- Association-list removal, modelling Go `delete(m, k)`. -/
def eraseA {α : Type} (l : List (Str × α)) (k : Str) : List (Str × α) :=
  match l with
  | [] => []
  | (k2, v2) :: rest => if k2 = k then rest else (k2, v2) :: eraseA rest k

/-- Insert into a list modelling a Go set (`map[T]struct`): no duplicates. -/
def setInsert (l : List Str) (k : Str) : List Str :=
  if l.contains k then l else l ++ [k]

/-- `Server` entity (ircd): SID, name, description, hop count, and the ID of
the directly linked `LocalServer` it is reachable through (`Link`). -/
structure ServerRec where
  sid : Str
  name : Str
  description : Str
  hopCount : Int
  linkId : Option Nat
deriving DecidableEq, Repr

/-- `User` entity (ircd): as introduced by the `UID` handler. `linkId` models
the `Link` field (the local server link toward the user); `localConnId` models
the `LocalUser` connection reference of a local user (`isLocal()` is its
presence). -/
structure User where
  displayNick : Str
  hopCount : Int
  nickTS : Int
  modes : List Char
  username : Str
  hostname : Str
  ip : Str
  uid : Str
  realName : Str
  channels : List Str
  linkId : Nat
  localConnId : Option Nat
deriving DecidableEq, Repr

/-- `Channel` entity (ircd): canonical name, creation TS, member UID set. -/
structure Channel where
  name : Str
  ts : Int
  members : List Str
deriving DecidableEq, Repr

/-- The daemon configuration fields the handlers read. -/
structure Config where
  ts6sid : Str
  serverName : Str
  maxNickLength : Nat
deriving DecidableEq, Repr

/-- The shared state of the `Catbox` daemon touched by the server-link
handlers: the server, nick, user, oper and channel tables and the set of
directly linked server connections (by connection ID). -/
structure Catbox where
  config : Config
  servers : List (Str × ServerRec)
  nicks : List (Str × Str)
  users : List (Str × User)
  opers : List Str
  localServers : List Nat
  channels : List (Str × Channel)
deriving DecidableEq, Repr

/-- The per-link state of a `LocalServer` (local_server.go): its connection
ID, the SID and name of the peer (`s.Server`), and the burst flags. -/
structure LSState where
  id : Nat
  sid : Str
  name : Str
  gotPING : Bool
  gotPONG : Bool
  bursting : Bool
deriving DecidableEq, Repr

/-- `NewLocalServer` (local_server.go): a fresh link starts with
`GotPING = false`, `GotPONG = false`, `Bursting = true`. -/
def lsInit (id : Nat) (sid name : Str) : LSState :=
  { id := id, sid := sid, name := name,
    gotPING := false, gotPONG := false, bursting := true }

/-- A connection a message can be queued to. -/
inductive Dest where
  | server (id : Nat)
  | user (connId : Nat)
deriving DecidableEq, Repr

/-- An observable output of a handler: a message queued to a connection's
writer, a write channel being closed, or a `noticeOpers` broadcast. -/
inductive Effect where
  | queue (d : Dest) (m : Message)
  | closeChan (id : Nat)
  | opersNotice (text : Str)
deriving DecidableEq, Repr

/-- How a handler finished: normally, by tearing the link down (`quit`), or —
for a Go out-of-range slice index — a runtime panic. -/
inductive Outcome where
  | ok
  | quit (reason : Str)
  | panic
deriving DecidableEq, Repr

/-- `LocalServer.messageFromServer` (local_server.go): numerics get the peer's
SID prepended as the target parameter; the prefix is our own SID. -/
def lsMessageFromServer (cb : Catbox) (s : LSState) (command : Str)
    (params : List Str) : Message :=
  { pfx := cb.config.ts6sid, command := command,
    params := if isNumericCommand command then s.sid :: params else params }

/-- `LocalServer.quit` (local_server.go): if the link is still registered,
send ERROR, close the write channel, and delete it from `LocalServers` and
its server from `Servers`. -/
def lsQuit (cb : Catbox) (s : LSState) (msg : Str) : Catbox × List Effect :=
  if cb.localServers.contains s.id then
    ({ cb with
        localServers := cb.localServers.filter (fun i => i ≠ s.id),
        servers := eraseA cb.servers s.sid },
      [Effect.queue (Dest.server s.id) (lsMessageFromServer cb s "ERROR".toList [msg]),
        Effect.closeChan s.id])
  else (cb, [])

/-- Shorthand: the triple a handler returns when it calls `s.quit(msg)`. -/
def quitOut (cb : Catbox) (s : LSState) (msg : Str) :
    Outcome × Catbox × List Effect :=
  ((Outcome.quit msg), (lsQuit cb s msg).1, (lsQuit cb s msg).2)

/-- Association-list in-place update at a key (Go: mutation through the map's
stored pointer). -/
def updateA {α : Type} (l : List (Str × α)) (k : Str) (f : α → α) :
    List (Str × α) :=
  match l with
  | [] => []
  | (k2, v) :: rest =>
    if k2 = k then (k2, f v) :: rest else (k2, v) :: updateA rest k f

/-- The umode loop of `uidCommand` (local_server.go): the first character must
be `+` (else the link is quit); afterwards only `i` and `o` are recognized and
collected, other letters are ignored. An empty mode string never enters the
loop and passes. -/
def parseUmodes : Str → Option (List Char)
  | [] => some []
  | c :: rest =>
    if c ≠ '+' then none
    else some ((rest.filter fun c2 => c2 = 'i' || c2 = 'o').dedup)

/-- Modelled from the spec: `User.nickUhost` (ircd, not under src/) — the
`nick!user@host` form of a user. -/
def nickUhost (u : User) : Str :=
  u.displayNick ++ '!' :: u.username ++ '@' :: u.hostname

/-- `LocalServer.uidCommand` (local_server.go): introduce a remote user.
Every parameter access `m.Params[i]` in the Go code is unguarded; an access
past the end of the parameter list is a Go runtime panic, modelled as
`Outcome.panic` (no state change, since all mutations happen at the end). -/
def uidCommand (cb : Catbox) (s : LSState) (m : Message) :
    Outcome × Catbox × List Effect :=
  if !isValidSID m.pfx then quitOut cb s "Invalid SID".toList
  else if (lookupA cb.servers m.pfx).isNone then
    quitOut cb s "Message from unknown server".toList
  else
    match m.params[0]? with
    | none => (Outcome.panic, cb, [])
    | some p0 =>
      if !isValidNick cb.config.maxNickLength p0 then
        quitOut cb s "Invalid NICK!".toList
      else if (lookupA cb.nicks (canonicalizeNick p0)).isSome then
        quitOut cb s "Nick collision".toList
      else
        match m.params[1]? with
        | none => (Outcome.panic, cb, [])
        | some p1 =>
          match parseDecInt 8 p1 with
          | none => quitOut cb s "Invalid hop count".toList
          | some hopCount =>
            match m.params[2]? with
            | none => (Outcome.panic, cb, [])
            | some p2 =>
              match parseDecInt 64 p2 with
              | none => quitOut cb s "Invalid nick TS".toList
              | some nickTS =>
                match m.params[3]? with
                | none => (Outcome.panic, cb, [])
                | some p3 =>
                  match parseUmodes p3 with
                  | none => quitOut cb s "Malformed umode".toList
                  | some umodes =>
                    match m.params[4]? with
                    | none => (Outcome.panic, cb, [])
                    | some p4 =>
                      if !isValidUser cb.config.maxNickLength p4 then
                        quitOut cb s "Invalid username".toList
                      else
                        match m.params[5]? with
                        | none => (Outcome.panic, cb, [])
                        | some p5 =>
                          match m.params[6]? with
                          | none => (Outcome.panic, cb, [])
                          | some p6 =>
                            match m.params[7]? with
                            | none => (Outcome.panic, cb, [])
                            | some p7 =>
                              if !isValidUID p7 then
                                quitOut cb s "Invalid UID".toList
                              else
                                match m.params[8]? with
                                | none => (Outcome.panic, cb, [])
                                | some p8 =>
                                  if !isValidRealName p8 then
                                    quitOut cb s "Invalid real name".toList
                                  else
                                    let u : User :=
                                      { displayNick := p0,
                                        hopCount := hopCount,
                                        nickTS := nickTS,
                                        modes := umodes,
                                        username := p4, hostname := p5,
                                        ip := p6, uid := p7, realName := p8,
                                        channels := [], linkId := s.id,
                                        localConnId := none }
                                    let cb1 :=
                                      if u.modes.contains 'o' then
                                        { cb with opers := setInsert cb.opers p7 }
                                      else cb
                                    (Outcome.ok,
                                      { cb1 with
                                          nicks := insertA cb1.nicks
                                            (canonicalizeNick p0) p7,
                                          users := insertA cb1.users p7 u },
                                      [])

/-- `LocalServer.privmsgCommand` (local_server.go), handling both PRIVMSG and
NOTICE: resolve the target by UID; deliver locally with source and target
rewritten, or forward the original message to the target's link. -/
def privmsgCommand (cb : Catbox) (s : LSState) (m : Message) :
    Outcome × Catbox × List Effect :=
  if m.params.length = 0 then
    (Outcome.ok, cb,
      [Effect.queue (Dest.server s.id)
        (lsMessageFromServer cb s "411".toList ["No recipient given (PRIVMSG)".toList])])
  else if m.params.length = 1 then
    (Outcome.ok, cb,
      [Effect.queue (Dest.server s.id)
        (lsMessageFromServer cb s "412".toList ["No text to send".toList])])
  else if !isValidUID m.pfx then quitOut cb s "Invalid source".toList
  else
    match lookupA cb.users m.pfx with
    | none => quitOut cb s "I don't know this source".toList
    | some sourceUser =>
      if isValidUID (m.params.getD 0 []) then
        match lookupA cb.users (m.params.getD 0 []) with
        | some targetUser =>
          match targetUser.localConnId with
          | some connId =>
            (Outcome.ok, cb,
              [Effect.queue (Dest.user connId)
                { pfx := nickUhost sourceUser,
                  command := m.command,
                  params := m.params.set 0 targetUser.displayNick }])
          | none =>
            (Outcome.ok, cb,
              [Effect.queue (Dest.server targetUser.linkId) m])
        | none => (Outcome.ok, cb, [])
      else (Outcome.ok, cb, [])

/-- `LocalServer.sidCommand` (local_server.go): install a newly introduced
server with next hop the link it arrived on, then propagate the identical
message to every other directly linked server. -/
def sidCommand (cb : Catbox) (s : LSState) (m : Message) :
    Outcome × Catbox × List Effect :=
  if !isValidSID m.pfx then quitOut cb s "Invalid origin".toList
  else if (lookupA cb.servers m.pfx).isNone then
    quitOut cb s "Unknown origin".toList
  else if m.params.length < 4 then
    (Outcome.ok, cb,
      [Effect.queue (Dest.server s.id)
        (lsMessageFromServer cb s "461".toList
          ["SID".toList, "Not enough parameters".toList])])
  else
    match parseDecInt 8 (m.params.getD 1 []) with
    | none => quitOut cb s "Invalid hop count".toList
    | some hopCount =>
      if !isValidSID (m.params.getD 2 []) then
        quitOut cb s "Invalid SID".toList
      else
        let newServer : ServerRec :=
          { sid := m.params.getD 2 [],
            name := m.params.getD 0 [],
            description := m.params.getD 3 [],
            hopCount := hopCount,
            linkId := some s.id }
        (Outcome.ok,
          { cb with servers := insertA cb.servers (m.params.getD 2 []) newServer },
          (cb.localServers.filter fun i => i ≠ s.id).map fun i =>
            Effect.queue (Dest.server i) m)

/-- Go `strings.Split(s, " ")`: split on every space; empty fields are kept
and the split of the empty string is one empty field. -/
def splitSpaces : Str → List Str
  | [] => [[]]
  | c :: rest =>
    if c = ' ' then [] :: splitSpaces rest
    else
      match splitSpaces rest with
      | r :: rs => (c :: r) :: rs
      | [] => [[c]]

/-- Go `strings.TrimLeft(s, "@+")`: strip leading op/voice markers. -/
def trimMarkers (s : Str) : Str :=
  s.dropWhile fun c => c = '@' || c = '+'

/-- The member loop of `sjoinCommand` (local_server.go): for each listed UID,
strip markers, require a valid and known UID (else the link is quit — with the
channel possibly already created and still empty, as the code's own TODO
notes), and bind member and channel bidirectionally. -/
def sjoinMembers (s : LSState) (chanKey : Str) (cb : Catbox) :
    List Str → Outcome × Catbox
  | [] => (Outcome.ok, cb)
  | uidRaw :: rest =>
    let uid := trimMarkers uidRaw
    if !isValidUID uid then (Outcome.quit "Invalid UID".toList, cb)
    else
      match lookupA cb.users uid with
      | none => (Outcome.quit "Unknown user".toList, cb)
      | some user =>
        let cb2 : Catbox :=
          { cb with
              channels := updateA cb.channels chanKey fun ch =>
                { ch with members := setInsert ch.members user.uid },
              users := insertA cb.users uid
                { user with channels := setInsert user.channels chanKey } }
        sjoinMembers s chanKey cb2 rest

/-- The reason carried by a quit outcome. -/
def quitReason : Outcome → Str
  | Outcome.quit r => r
  | _ => []

/-- `LocalServer.sjoinCommand` (local_server.go): create the channel if absent
(inserted into the table before the members are validated), bind the listed
members, and propagate the identical message to every other directly linked
server. -/
def sjoinCommand (cb : Catbox) (s : LSState) (m : Message) :
    Outcome × Catbox × List Effect :=
  if (lookupA cb.servers m.pfx).isNone then
    quitOut cb s "Unknown server".toList
  else if m.params.length < 4 then
    (Outcome.ok, cb,
      [Effect.queue (Dest.server s.id)
        (lsMessageFromServer cb s "461".toList
          ["PING".toList, "Not enough parameters".toList])])
  else
    match parseDecInt 64 (m.params.getD 0 []) with
    | none => quitOut cb s "Invalid channel TS".toList
    | some channelTS =>
      let key := canonicalizeChannel (m.params.getD 1 [])
      let cb1 : Catbox :=
        if (lookupA cb.channels key).isSome then cb
        else
          { cb with
              channels := insertA cb.channels key
                { name := key, ts := channelTS, members := [] } }
      let userList :=
        if 4 < m.params.length then m.params.getD 4 [] else m.params.getD 3 []
      match sjoinMembers s key cb1 (splitSpaces userList) with
      | (Outcome.ok, cb2) =>
        (Outcome.ok, cb2,
          (cb2.localServers.filter fun i => i ≠ s.id).map fun i =>
            Effect.queue (Dest.server i) m)
      | (out, cb2) =>
        (out, (lsQuit cb2 s (quitReason out)).1, (lsQuit cb2 s (quitReason out)).2)

/-- The `noticeOpers` text sent when a burst completes:
`fmt.Sprintf("Burst with %s over.", s.Server.Name)`. -/
def burstOverMsg (name : Str) : Str :=
  "Burst with ".toList ++ name ++ " over.".toList

/-- `LocalServer.pingCommand` (local_server.go): reply with PONG; when
bursting and the PING names the peer itself, record `GotPING` and — if
`GotPONG` is already present — notify operators and clear `Bursting`. -/
def pingCommand (cb : Catbox) (s : LSState) (m : Message) :
    Outcome × Catbox × LSState × List Effect :=
  if m.params.length < 1 then
    (Outcome.ok, cb, s,
      [Effect.queue (Dest.server s.id)
        (lsMessageFromServer cb s "461".toList
          ["PING".toList, "Not enough parameters".toList])])
  else
    let sid := if m.pfx.isEmpty then s.sid else m.pfx
    if (lookupA cb.servers sid).isNone then
      (Outcome.ok, cb, s,
        [Effect.queue (Dest.server s.id)
          { pfx := cb.config.ts6sid, command := "402".toList,
            params := [sid, "No such server".toList] }])
    else
      let pongEff := Effect.queue (Dest.server s.id)
        { pfx := cb.config.ts6sid, command := "PONG".toList,
          params := [cb.config.serverName, sid] }
      if s.bursting && sid = s.sid then
        let s1 := { s with gotPING := true }
        if s1.gotPONG then
          (Outcome.ok, cb, { s1 with bursting := false },
            [pongEff, Effect.opersNotice (burstOverMsg s.name)])
        else (Outcome.ok, cb, s1, [pongEff])
      else (Outcome.ok, cb, s, [pongEff])

/-- `LocalServer.pongCommand` (local_server.go): validate prefix, server name
and our SID (each failure tears the link down); record `GotPONG`; when
bursting and `GotPING` is present, notify operators and clear `Bursting`. -/
def pongCommand (cb : Catbox) (s : LSState) (m : Message) :
    Outcome × Catbox × LSState × List Effect :=
  if m.params.length < 2 then
    (Outcome.ok, cb, s,
      [Effect.queue (Dest.server s.id)
        (lsMessageFromServer cb s "461".toList
          ["SVINFO".toList, "Not enough parameters".toList])])
  else if m.pfx ≠ s.sid then
    (Outcome.quit "Unknown prefix".toList,
      (lsQuit cb s "Unknown prefix".toList).1, s,
      (lsQuit cb s "Unknown prefix".toList).2)
  else if m.params.getD 0 [] ≠ s.name then
    (Outcome.quit "Unknown server name".toList,
      (lsQuit cb s "Unknown server name".toList).1, s,
      (lsQuit cb s "Unknown server name".toList).2)
  else if m.params.getD 1 [] ≠ cb.config.ts6sid then
    (Outcome.quit "Unknown SID".toList,
      (lsQuit cb s "Unknown SID".toList).1, s,
      (lsQuit cb s "Unknown SID".toList).2)
  else
    let s1 := { s with gotPONG := true }
    if s.bursting && s1.gotPING then
      (Outcome.ok, cb, { s1 with bursting := false },
        [Effect.opersNotice (burstOverMsg s.name)])
    else (Outcome.ok, cb, s1, [])

/-- A valid message prefix for round-tripping: absent (empty), or nonempty
with none of the characters the prefix grammar excludes (space, NUL, CR,
LF). -/
def validPfx (p : Str) : Bool :=
  p.isEmpty || p.all fun c => !(c = ' ' || c = '\x00' || c = '\n' || c = '\r')

/-- A valid command for round-tripping: nonempty, within the character class
the parser accepts, and fixed by the parser's upper-casing. -/
def validCmd (c : Str) : Bool :=
  !c.isEmpty && c.all fun ch => isCommandChar ch && (toUpperChar ch == ch)

/-- A parameter free of the control characters (NUL, CR, LF) that the
parameter grammar excludes. -/
def noCtl (p : Str) : Bool :=
  p.all fun c => !isParamEnd c

/-- A well-formed message (RFC 2812 grammar as the codec implements it):
valid prefix and command, at most 15 parameters, parameters free of
NUL/CR/LF. -/
def wellFormed (m : Message) : Bool :=
  validPfx m.pfx && validCmd m.command
    && decide (m.params.length ≤ 15) && m.params.all noCtl

/-- `:` and space (and emptiness) confined to the last parameter — the
placement restriction `Encode` enforces. -/
def colonSpaceOK : List Str → Bool
  | [] => true
  | [_] => true
  | p :: q :: rest => !(hasColonOrSpace p || p.isEmpty) && colonSpaceOK (q :: rest)

/-- The burst-state discipline of a server link: the `Bursting` flag is set
exactly while the PING/PONG milestone pair is not yet complete. -/
def burstInv (s : LSState) : Prop :=
  s.bursting = true ↔ ¬(s.gotPING = true ∧ s.gotPONG = true)

/-- A table (association list) has at most one entry per key: its keys are
pairwise distinct, as Go map semantics guarantee. -/
def distinctKeys {α : Type} (l : List (Str × α)) : Prop :=
  (l.map Prod.fst).Nodup

/-! ## Theorems -/

theorem take_set {α : Type} :
    ∀ (l : List α) (n : Nat) (a : α), (l.set n a).take n = l.take n
  | [], _, _ => by simp
  | _ :: _, 0, _ => by simp
  | c :: cs, n + 1, a => by
    simp [List.set, List.take_succ_cons, take_set cs n a]

theorem ts6loop_eq (id : Nat) :
    ∀ (pos : Nat) (buf : Str), id < 26 ^ (pos + 1) → pos < buf.length →
      buf.take (pos + 1) = List.replicate (pos + 1) 'A' →
      ts6loop id pos buf =
        ((List.range (pos + 1)).map fun j =>
          Char.ofNat (id / 26 ^ (pos - j) % 26 + 65)) ++ buf.drop (pos + 1) := by
  induction id using Nat.strong_induction_on with
  | _ id IH =>
    intro pos buf hlt hpos htake
    rw [ts6loop]
    by_cases h26 : 26 ≤ id
    · cases pos with
      | zero =>
        exfalso
        have h1 : (26 : Nat) ^ (0 + 1) = 26 := by norm_num
        rw [h1] at hlt
        omega
      | succ q =>
        rw [dif_pos h26]
        have hq : q + 1 - 1 = q := rfl
        have hdiv : id / 26 < 26 ^ (q + 1) := by
          have h1 : id < 26 ^ (q + 1) * 26 := by
            have : (26 : Nat) ^ (q + 1 + 1) = 26 ^ (q + 1) * 26 := by ring
            omega
          exact Nat.div_lt_of_lt_mul (by omega)
        have hlen : q < (buf.set (q + 1) (Char.ofNat (id % 26 + 65))).length := by
          rw [List.length_set]; omega
        have htake2 :
            (buf.set (q + 1) (Char.ofNat (id % 26 + 65))).take (q + 1)
              = List.replicate (q + 1) 'A' := by
          rw [take_set]
          have h1 : buf.take (q + 1) = (buf.take (q + 1 + 1)).take (q + 1) := by
            rw [List.take_take]
            congr 1
            omega
          rw [h1, htake, List.take_replicate]
          congr 1
          omega
        have hIH := IH (id / 26) (Nat.div_lt_self (by omega) (by omega)) q
          (buf.set (q + 1) (Char.ofNat (id % 26 + 65))) hdiv hlen htake2
        rw [hq, hIH]
        have hsplit : buf.set (q + 1) (Char.ofNat (id % 26 + 65))
            = buf.take (q + 1) ++ Char.ofNat (id % 26 + 65) :: buf.drop (q + 1 + 1) :=
          List.set_eq_take_cons_drop _ hpos
        have hdrop : (buf.set (q + 1) (Char.ofNat (id % 26 + 65))).drop (q + 1)
            = Char.ofNat (id % 26 + 65) :: buf.drop (q + 1 + 1) := by
          rw [hsplit]
          have hl : (buf.take (q + 1)).length = q + 1 := by
            rw [List.length_take]; omega
          exact List.drop_left' hl
        rw [hdrop]
        have hmap : ((List.range (q + 1)).map fun j =>
              Char.ofNat (id / 26 / 26 ^ (q - j) % 26 + 65))
            = (List.range (q + 1)).map fun j =>
              Char.ofNat (id / 26 ^ (q + 1 - j) % 26 + 65) := by
          apply List.map_congr_left
          intro j hj
          have hj2 : j ≤ q := by
            have := List.mem_range.mp hj; omega
          have he : q + 1 - j = (q - j) + 1 := by omega
          rw [Nat.div_div_eq_div_mul, he, pow_succ, mul_comm (26 ^ (q - j)) 26]
        rw [hmap]
        conv_rhs => rw [List.range_succ, List.map_append]
        simp [Nat.sub_self]
    · rw [dif_neg h26]
      have hset : buf.set pos (Char.ofNat (id + 65))
          = buf.take pos ++ Char.ofNat (id + 65) :: buf.drop (pos + 1) :=
        List.set_eq_take_cons_drop _ hpos
      rw [hset]
      have htakepos : buf.take pos = List.replicate pos 'A' := by
        have h1 : buf.take pos = (buf.take (pos + 1)).take pos := by
          rw [List.take_take]
          congr 1
          omega
        rw [h1, htake, List.take_replicate]
        congr 1
        omega
      rw [htakepos, List.range_succ, List.map_append]
      have hlast : (List.map (fun j => Char.ofNat (id / 26 ^ (pos - j) % 26 + 65)) [pos])
          = [Char.ofNat (id + 65)] := by
        simp [Nat.mod_eq_of_lt (by omega : id < 26)]
      have hinit : ((List.range pos).map fun j =>
            Char.ofNat (id / 26 ^ (pos - j) % 26 + 65))
          = List.replicate pos 'A' := by
        apply List.eq_replicate_iff.mpr
        constructor
        · simp
        · intro b hb
          rcases List.mem_map.mp hb with ⟨j, hj, hbj⟩
          have hj2 : j < pos := List.mem_range.mp hj
          have hpow : 26 ≤ 26 ^ (pos - j) := by
            calc (26 : Nat) = 26 ^ 1 := by norm_num
            _ ≤ 26 ^ (pos - j) := Nat.pow_le_pow_right (by omega) (by omega)
          have : id / 26 ^ (pos - j) = 0 := Nat.div_eq_of_lt (by omega)
          rw [this] at hbj
          simpa using hbj.symm
      rw [hlast, hinit]
      simp

theorem getTS6ID_eq_ts6Chars (id : Nat) (h : id < 26 ^ 6) :
    getTS6ID id = some (ts6Chars id) := by
  have h6 : (26 : Nat) ^ 6 = 308915776 := by norm_num
  rw [getTS6ID, if_neg (by omega)]
  congr 1
  have := ts6loop_eq id 5 (List.replicate 6 'A')
    (by norm_num; omega) (by simp) (by simp)
  rw [this]
  simp [ts6Chars, ts6Digit]

theorem getTS6ID_overflow (id : Nat) (h : 26 ^ 6 ≤ id) : getTS6ID id = none := by
  have h6 : (26 : Nat) ^ 6 = 308915776 := by norm_num
  rw [getTS6ID, if_pos (by omega)]

theorem natFromDigits_append (l : List Nat) (d : Nat) :
    natFromDigits (l ++ [d]) = natFromDigits l * 26 + d := by
  simp [natFromDigits, List.foldl_append]

theorem natDigits_succ (k n : Nat) :
    natDigits (k + 1) n = natDigits k (n / 26) ++ [n % 26] := by
  rw [natDigits, natDigits, List.range_succ, List.map_append]
  congr 1
  · apply List.map_congr_left
    intro j hj
    have hj2 : j < k := List.mem_range.mp hj
    have he : k + 1 - 1 - j = (k - 1 - j) + 1 := by omega
    rw [Nat.div_div_eq_div_mul, he, pow_succ, mul_comm (26 ^ (k - 1 - j)) 26]
  · simp

theorem natFromDigits_natDigits :
    ∀ (k n : Nat), n < 26 ^ k → natFromDigits (natDigits k n) = n := by
  intro k
  induction k with
  | zero =>
    intro n hn
    simp [natDigits, natFromDigits]
    omega
  | succ k IH =>
    intro n hn
    rw [natDigits_succ, natFromDigits_append, IH (n / 26) ?_]
    · omega
    · have : (26 : Nat) ^ (k + 1) = 26 ^ k * 26 := by ring
      rw [this] at hn
      exact Nat.div_lt_of_lt_mul (by omega)

theorem natDigits_natFromDigits :
    ∀ (ds : List Nat), (∀ d ∈ ds, d < 26) →
      natFromDigits ds < 26 ^ ds.length ∧
        natDigits ds.length (natFromDigits ds) = ds := by
  intro ds
  induction ds using List.reverseRecOn with
  | nil =>
    intro _
    simp [natFromDigits, natDigits]
  | append_singleton l d IH =>
    intro hall
    have hd : d < 26 := hall d (by simp)
    have hIH := IH fun x hx => hall x (by simp [hx])
    obtain ⟨hbound, heq⟩ := hIH
    rw [natFromDigits_append]
    constructor
    · have h1 : (26 : Nat) ^ (l ++ [d]).length = 26 ^ l.length * 26 := by
        simp [pow_succ]
      rw [h1]
      have : natFromDigits l ≤ 26 ^ l.length - 1 := by omega
      have h2 : (0 : Nat) < 26 ^ l.length := Nat.pos_pow_of_pos _ (by omega)
      nlinarith
    · have hlen : (l ++ [d]).length = l.length + 1 := by simp
      rw [hlen, natDigits_succ]
      have hdiv : (natFromDigits l * 26 + d) / 26 = natFromDigits l := by omega
      have hmod : (natFromDigits l * 26 + d) % 26 = d := by omega
      rw [hdiv, hmod, heq]

theorem ts6Chars_eq_digits (id : Nat) :
    ts6Chars id = (natDigits 6 id).map fun d => Char.ofNat (d + 65) := by
  rw [ts6Chars, natDigits, List.map_map]
  apply List.map_congr_left
  intro j hj
  simp [ts6Digit]

theorem ts6Decode_eq (s : Str) :
    ts6Decode s = natFromDigits (s.map fun c => c.toNat - 65) := by
  rw [ts6Decode, natFromDigits, List.foldl_map]

theorem digitChar_toNat : ∀ d, d < 26 → (Char.ofNat (d + 65)).toNat = d + 65 := by
  decide

theorem letterChar_roundtrip :
    ∀ c : Char, 65 ≤ c.toNat → c.toNat ≤ 90 →
      Char.ofNat (c.toNat - 65 + 65) = c := by
  intro c h1 h2
  have : c.toNat - 65 + 65 = c.toNat := by omega
  rw [this, Char.ofNat_toNat]

theorem ts6Decode_ts6Chars (id : Nat) (h : id < 26 ^ 6) :
    ts6Decode (ts6Chars id) = id := by
  rw [ts6Decode_eq, ts6Chars_eq_digits, List.map_map]
  have hd : ∀ d ∈ natDigits 6 id, d < 26 := by
    intro d hdm
    rcases List.mem_map.mp hdm with ⟨j, _, hj⟩
    rw [← hj]
    exact Nat.mod_lt _ (by omega)
  have hmap : (natDigits 6 id).map ((fun c : Char => c.toNat - 65) ∘
      fun d => Char.ofNat (d + 65)) = natDigits 6 id := by
    apply List.map_congr_left ?_ |>.trans (List.map_id _)
    intro d hdm
    have := digitChar_toNat d (hd d hdm)
    simp [Function.comp, this]
  rw [hmap]
  exact natFromDigits_natDigits 6 id h

theorem ts6Chars_sixLetters (id : Nat) : isSixLetters (ts6Chars id) = true := by
  rw [isSixLetters]
  simp only [Bool.and_eq_true]
  constructor
  · simp [ts6Chars]
  · rw [List.all_eq_true]
    intro c hc
    rcases List.mem_map.mp hc with ⟨j, _, hj⟩
    have hd : ts6Digit id j < 26 := Nat.mod_lt _ (by omega)
    have htn := digitChar_toNat (ts6Digit id j) hd
    subst hj
    simp only [htn, Bool.and_eq_true, decide_eq_true_eq]
    omega

theorem ts6Chars_ts6Decode (s : Str) (h : isSixLetters s = true) :
    ts6Decode s < 26 ^ 6 ∧ ts6Chars (ts6Decode s) = s := by
  rw [isSixLetters, Bool.and_eq_true] at h
  obtain ⟨hlen, hall⟩ := h
  have hlen6 : s.length = 6 := by simpa using hlen
  have hrange : ∀ c ∈ s, 65 ≤ c.toNat ∧ c.toNat ≤ 90 := by
    intro c hc
    have h2 := List.all_eq_true.mp hall c hc
    simp only [Bool.and_eq_true, decide_eq_true_eq] at h2
    exact h2
  have hds : ∀ d ∈ s.map (fun c => c.toNat - 65), d < 26 := by
    intro d hd
    rcases List.mem_map.mp hd with ⟨c, hc, hdc⟩
    have := hrange c hc
    omega
  have hdl : (s.map fun c => c.toNat - 65).length = 6 := by
    simpa using hlen6
  have hmain := natDigits_natFromDigits _ hds
  rw [hdl] at hmain
  obtain ⟨hb, hinv⟩ := hmain
  rw [ts6Decode_eq]
  refine ⟨hb, ?_⟩
  rw [ts6Chars_eq_digits, hinv, List.map_map]
  apply (List.map_congr_left ?_).trans (List.map_id _)
  intro c hc
  have := hrange c hc
  simp only [Function.comp_apply]
  exact letterChar_roundtrip c this.1 this.2

/-- C1: `getTS6ID` is a bijection from connection IDs below 26^6 = 308915776
onto 6-letter strings over A–Z (ID 0 ↦ AAAAAA, 1 ↦ AAAAAB, 26 ↦ AAAABA), and
every ID at or above 26^6 is rejected with an error. -/
theorem getTS6ID_bijective :
    (∀ id, id < 26 ^ 6 →
      getTS6ID id = some (ts6Chars id) ∧ isSixLetters (ts6Chars id) = true) ∧
    (∀ id, 26 ^ 6 ≤ id → getTS6ID id = none) ∧
    (∀ a b, a < 26 ^ 6 → b < 26 ^ 6 → getTS6ID a = getTS6ID b → a = b) ∧
    (∀ s, isSixLetters s = true → ∃ id, id < 26 ^ 6 ∧ getTS6ID id = some s) ∧
    getTS6ID 0 = some "AAAAAA".toList ∧
    getTS6ID 1 = some "AAAAAB".toList ∧
    getTS6ID 26 = some "AAAABA".toList := by
  refine ⟨?_, ?_, ?_, ?_, ?_, ?_, ?_⟩
  · intro id h
    exact ⟨getTS6ID_eq_ts6Chars id h, ts6Chars_sixLetters id⟩
  · intro id h
    exact getTS6ID_overflow id h
  · intro a b ha hb heq
    rw [getTS6ID_eq_ts6Chars a ha, getTS6ID_eq_ts6Chars b hb] at heq
    have h2 : ts6Chars a = ts6Chars b := by simpa using heq
    have := ts6Decode_ts6Chars a ha
    rw [← this, h2, ts6Decode_ts6Chars b hb]
  · intro s hs
    obtain ⟨hb, hchars⟩ := ts6Chars_ts6Decode s hs
    exact ⟨ts6Decode s, hb, by rw [getTS6ID_eq_ts6Chars _ hb, hchars]⟩
  · rw [getTS6ID_eq_ts6Chars 0 (by norm_num)]
    decide
  · rw [getTS6ID_eq_ts6Chars 1 (by norm_num)]
    decide
  · rw [getTS6ID_eq_ts6Chars 26 (by norm_num)]
    decide

/-- Witness for C1 at concrete inputs. -/
theorem getTS6ID_bijective_witness :
    getTS6ID 27 = some (ts6Chars 27) ∧ getTS6ID 308915776 = none :=
  ⟨(getTS6ID_bijective.1 27 (by norm_num)).1,
    getTS6ID_bijective.2.1 308915776 (by norm_num)⟩

/-- C8 counterexample: with the `SendQueueExceeded` flag already set and an
empty (far from full) queue, `maybeQueueMessage` drops the message instead of
appending it, so "enqueueing when the queue has room appends the message" is
false as stated. -/
theorem maybeQueueMessage_room_not_appended :
    ((⟨true, [], 32768⟩ : ClientQ).writeChan.length < (⟨true, [], 32768⟩ : ClientQ).cap)
    ∧ (maybeQueueMessage ⟨true, [], 32768⟩ ⟨[], [], []⟩).writeChan ≠
        (⟨true, [], 32768⟩ : ClientQ).writeChan ++ [⟨[], [], []⟩] := by
  decide

/-- C8 (amended): enqueueing with `maybeQueueMessage` never blocks (it is a
total function); on a full queue it sets `SendQueueExceeded`, drops the
message and leaves the queue unchanged; on a queue with room it appends the
message provided the `SendQueueExceeded` flag is not already set — if the
flag is set the message is dropped and the connection state is unchanged
regardless of room. -/
theorem maybeQueueMessage_spec (c : ClientQ) (m : Message) :
    (¬ c.writeChan.length < c.cap →
      (maybeQueueMessage c m).sendQueueExceeded = true ∧
        (maybeQueueMessage c m).writeChan = c.writeChan) ∧
    (c.sendQueueExceeded = false → c.writeChan.length < c.cap →
      maybeQueueMessage c m = { c with writeChan := c.writeChan ++ [m] }) ∧
    (c.sendQueueExceeded = true → maybeQueueMessage c m = c) := by
  refine ⟨?_, ?_, ?_⟩
  · intro hfull
    by_cases hx : c.sendQueueExceeded
    · simp [maybeQueueMessage, hx]
    · simp [maybeQueueMessage, hx, hfull]
  · intro hx hroom
    simp [maybeQueueMessage, hx, hroom]
  · intro hx
    simp [maybeQueueMessage, hx]

/-- Witness for C8 at a concrete connection and message. -/
theorem maybeQueueMessage_spec_witness :
    maybeQueueMessage ⟨false, [], 32768⟩ ⟨[], "PING".toList, []⟩ =
      ⟨false, [⟨[], "PING".toList, []⟩], 32768⟩ :=
  (maybeQueueMessage_spec ⟨false, [], 32768⟩ ⟨[], "PING".toList, []⟩).2.1
    rfl (by decide)

/-- C10: once `SendQueueExceeded` is set on a connection it is never cleared
and every later `maybeQueueMessage` call returns the state unchanged — no
message is ever enqueued again, no matter how much room the queue has. -/
theorem sendQueueExceeded_sticky (c : ClientQ)
    (h : c.sendQueueExceeded = true) :
    (∀ m, maybeQueueMessage c m = c) ∧
    (∀ ms : List Message, ms.foldl maybeQueueMessage c = c) := by
  have hstep : ∀ m, maybeQueueMessage c m = c := by
    intro m
    simp [maybeQueueMessage, h]
  refine ⟨hstep, ?_⟩
  intro ms
  induction ms with
  | nil => rfl
  | cons m ms ih => rw [List.foldl_cons, hstep, ih]

/-- Witness for C10 at a concrete overflowed connection. -/
theorem sendQueueExceeded_sticky_witness :
    List.foldl maybeQueueMessage (⟨true, [], 32768⟩ : ClientQ)
      [⟨[], "PING".toList, []⟩, ⟨[], "PONG".toList, []⟩] = ⟨true, [], 32768⟩ :=
  (sendQueueExceeded_sticky ⟨true, [], 32768⟩ rfl).2 _

/-- C9: the Go `uidCommand` indexes `m.Params[0]`–`m.Params[8]` without any
length check. A `UID` message with a valid prefix from a known server and an
empty parameter list drives the handler into an out-of-range index (a Go
runtime panic) instead of a numeric reply or a quit. -/
theorem uidCommand_short_params_panic :
    uidCommand
      { config := ⟨"000".toList, "irc.example.com".toList, 50⟩,
        servers := [("8ZZ".toList,
          ⟨"8ZZ".toList, "irc2.example.com".toList, "desc".toList, 1, some 7⟩)],
        nicks := [], users := [], opers := [], localServers := [7],
        channels := [] }
      (lsInit 7 "8ZZ".toList "irc2.example.com".toList)
      ⟨"8ZZ".toList, "UID".toList, []⟩
    = (Outcome.panic,
        { config := ⟨"000".toList, "irc.example.com".toList, 50⟩,
          servers := [("8ZZ".toList,
            ⟨"8ZZ".toList, "irc2.example.com".toList, "desc".toList, 1, some 7⟩)],
          nicks := [], users := [], opers := [], localServers := [7],
          channels := [] },
        []) := by
  decide

/-- C3: `sjoinCommand` inserts a newly created channel into the channel table
before validating the member list; when the single listed member is unknown
the link is torn down but the empty channel stays in the table, violating the
"channel exists iff membership nonempty" invariant (the code's own TODO notes
this). -/
theorem sjoin_empty_channel :
    (sjoinCommand
      { config := ⟨"000".toList, "irc.example.com".toList, 50⟩,
        servers := [("8ZZ".toList,
          ⟨"8ZZ".toList, "irc2.example.com".toList, "desc".toList, 1, some 7⟩)],
        nicks := [], users := [], opers := [], localServers := [7],
        channels := [] }
      (lsInit 7 "8ZZ".toList "irc2.example.com".toList)
      ⟨"8ZZ".toList, "SJOIN".toList,
        ["1475187553".toList, "#test2".toList, "+nt".toList,
          "9XYAAAAAA".toList]⟩).1
      = Outcome.quit "Unknown user".toList ∧
    lookupA (sjoinCommand
      { config := ⟨"000".toList, "irc.example.com".toList, 50⟩,
        servers := [("8ZZ".toList,
          ⟨"8ZZ".toList, "irc2.example.com".toList, "desc".toList, 1, some 7⟩)],
        nicks := [], users := [], opers := [], localServers := [7],
        channels := [] }
      (lsInit 7 "8ZZ".toList "irc2.example.com".toList)
      ⟨"8ZZ".toList, "SJOIN".toList,
        ["1475187553".toList, "#test2".toList, "+nt".toList,
          "9XYAAAAAA".toList]⟩).2.1.channels "#test2".toList
      = some ⟨"#test2".toList, 1475187553, []⟩ := by
  constructor
  · decide
  · decide

theorem mem_keys_insertA {α : Type} (l : List (Str × α)) (k : Str) (v : α)
    (x : Str) :
    x ∈ (insertA l k v).map Prod.fst ↔ x ∈ l.map Prod.fst ∨ x = k := by
  induction l with
  | nil =>
    rw [insertA]
    simp
  | cons p rest ih =>
    rw [insertA]
    by_cases hk : p.1 = k
    · subst hk
      rw [if_pos rfl]
      simp only [List.map_cons, List.mem_cons]
      tauto
    · rw [if_neg hk]
      simp only [List.map_cons, List.mem_cons, ih]
      tauto

theorem distinct_insertA {α : Type} (l : List (Str × α)) (k : Str) (v : α)
    (h : distinctKeys l) : distinctKeys (insertA l k v) := by
  induction l with
  | nil =>
    rw [insertA, distinctKeys]
    simp
  | cons p rest ih =>
    rw [distinctKeys, List.map_cons, List.nodup_cons] at h
    obtain ⟨hnm, hrest⟩ := h
    rw [insertA]
    by_cases hk : p.1 = k
    · subst hk
      rw [if_pos rfl, distinctKeys, List.map_cons, List.nodup_cons]
      exact ⟨hnm, hrest⟩
    · rw [if_neg hk]
      rw [distinctKeys, List.map_cons, List.nodup_cons]
      refine ⟨?_, ih hrest⟩
      rw [mem_keys_insertA]
      rintro (hmem | heq)
      · exact hnm hmem
      · exact hk heq

theorem quitOut_nicks (cb : Catbox) (s : LSState) (r : Str) :
    (quitOut cb s r).2.1.nicks = cb.nicks := by
  rw [quitOut, lsQuit]
  split <;> rfl

theorem quitOut_sid_gone (cb : Catbox) (s : LSState) (r : Str) :
    s.id ∉ (quitOut cb s r).2.1.localServers := by
  rw [quitOut, lsQuit]
  split
  · intro hmem
    have h2 := List.mem_filter.mp hmem
    simp at h2
  · rename_i hc
    intro hmem
    exact hc (List.elem_iff.mpr hmem)

theorem uidCommand_nicks_cases (cb : Catbox) (s : LSState) (m : Message) :
    (uidCommand cb s m).2.1.nicks = cb.nicks ∨
    ∃ key uid, (lookupA cb.nicks key).isSome = false ∧
      (uidCommand cb s m).2.1.nicks = insertA cb.nicks key uid := by
  rw [uidCommand]
  repeat' split
  all_goals try exact Or.inl (quitOut_nicks cb s _)
  all_goals try exact Or.inl rfl
  dsimp only
  split
  all_goals
    right
    refine ⟨_, _, ?_, rfl⟩
    simp_all

/-- C2: the nick table keeps at most one UID per canonical nick. When a `UID`
message introduces a nick whose canonical form is already present, the handler
quits the introducing link — the nick table is left unchanged and the link is
removed from `LocalServers` — so exactly one entry (the original) survives;
and `uidCommand` always preserves distinctness of the canonical-nick keys. -/
theorem uidCommand_nick_collision (cb : Catbox) (s : LSState) (m : Message) :
    (∀ nick,
      m.params[0]? = some nick →
      isValidSID m.pfx = true →
      (lookupA cb.servers m.pfx).isNone = false →
      isValidNick cb.config.maxNickLength nick = true →
      (lookupA cb.nicks (canonicalizeNick nick)).isSome = true →
      uidCommand cb s m = quitOut cb s "Nick collision".toList ∧
      (uidCommand cb s m).2.1.nicks = cb.nicks ∧
      s.id ∉ (uidCommand cb s m).2.1.localServers) ∧
    (distinctKeys cb.nicks → distinctKeys (uidCommand cb s m).2.1.nicks) := by
  constructor
  · intro nick h0 h1 h2 h3 h4
    have heq : uidCommand cb s m = quitOut cb s "Nick collision".toList := by
      rw [uidCommand, h1, h2, h0]
      simp only [Bool.not_true, Bool.false_eq_true, if_false, h3, h4, if_true]
    refine ⟨heq, ?_, ?_⟩
    · rw [heq, quitOut_nicks]
    · rw [heq]
      exact quitOut_sid_gone cb s _
  · intro h
    rcases uidCommand_nicks_cases cb s m with hc | ⟨key, uid, _, hc⟩
    · rw [hc]
      exact h
    · rw [hc]
      exact distinct_insertA _ _ _ h

/-- Witness for C2: a concrete `UID` introduction colliding with an existing
canonical nick. -/
theorem uidCommand_nick_collision_witness :
    uidCommand
      { config := ⟨"000".toList, "irc.example.com".toList, 50⟩,
        servers := [("8ZZ".toList,
          ⟨"8ZZ".toList, "irc2.example.com".toList, "desc".toList, 1, some 7⟩)],
        nicks := [("will".toList, "000AAAAAB".toList)],
        users := [], opers := [], localServers := [7], channels := [] }
      (lsInit 7 "8ZZ".toList "irc2.example.com".toList)
      ⟨"8ZZ".toList, "UID".toList,
        ["Will".toList, "2".toList, "1475024621".toList, "+i".toList,
          "will".toList, "h.example.com".toList, "0".toList,
          "8ZZAAAAAB".toList, "Will X".toList]⟩
    = quitOut
      { config := ⟨"000".toList, "irc.example.com".toList, 50⟩,
        servers := [("8ZZ".toList,
          ⟨"8ZZ".toList, "irc2.example.com".toList, "desc".toList, 1, some 7⟩)],
        nicks := [("will".toList, "000AAAAAB".toList)],
        users := [], opers := [], localServers := [7], channels := [] }
      (lsInit 7 "8ZZ".toList "irc2.example.com".toList)
      "Nick collision".toList :=
  ((uidCommand_nick_collision _ _ _).1 "Will".toList (by decide) (by decide)
    (by decide) (by decide) (by decide)).1

/-- C5: PRIVMSG/NOTICE routing on a server link. With a known source UID and a
target parameter that is the UID of a known user: a local target gets exactly
one message queued to its own connection with the prefix rewritten to
`nick!user@host` and the target parameter rewritten to the display nick; a
remote target causes exactly one queue effect, the original message unmodified,
to the link the target is known through. No other connection is sent
anything. -/
theorem privmsg_routing (cb : Catbox) (s : LSState) (m : Message)
    (src tgt : User)
    (hlen : 2 ≤ m.params.length)
    (hpfx : isValidUID m.pfx = true)
    (hsrc : lookupA cb.users m.pfx = some src)
    (htgtv : isValidUID (m.params.getD 0 []) = true)
    (htgt : lookupA cb.users (m.params.getD 0 []) = some tgt) :
    (∀ connId, tgt.localConnId = some connId →
      privmsgCommand cb s m = (Outcome.ok, cb,
        [Effect.queue (Dest.user connId)
          ⟨nickUhost src, m.command, m.params.set 0 tgt.displayNick⟩])) ∧
    (tgt.localConnId = none →
      privmsgCommand cb s m = (Outcome.ok, cb,
        [Effect.queue (Dest.server tgt.linkId) m])) := by
  have h0 : ¬ m.params.length = 0 := by omega
  have h1 : ¬ m.params.length = 1 := by omega
  simp only [List.getD_eq_getElem?_getD] at htgtv htgt
  constructor
  · intro connId hc
    simp [privmsgCommand, h0, h1, hpfx, hsrc, htgtv, htgt, hc]
  · intro hc
    simp [privmsgCommand, h0, h1, hpfx, hsrc, htgtv, htgt, hc]

/-- Witness for C5: a concrete local delivery with prefix and target
rewritten. -/
theorem privmsg_routing_witness :
    privmsgCommand
      { config := ⟨"000".toList, "irc.example.com".toList, 50⟩,
        servers := [("8ZZ".toList,
          ⟨"8ZZ".toList, "irc2.example.com".toList, "desc".toList, 1, some 7⟩)],
        nicks := [],
        users := [("8ZZAAAAAB".toList,
            ⟨"will".toList, 1, 1475024621, [], "will".toList, "h1".toList,
              "0".toList, "8ZZAAAAAB".toList, "Will".toList, [], 7, none⟩),
          ("000AAAAAA".toList,
            ⟨"ana".toList, 0, 1475024622, [], "ana".toList, "h2".toList,
              "0".toList, "000AAAAAA".toList, "Ana".toList, [], 7, some 3⟩)],
        opers := [], localServers := [7], channels := [] }
      (lsInit 7 "8ZZ".toList "irc2.example.com".toList)
      ⟨"8ZZAAAAAB".toList, "PRIVMSG".toList,
        ["000AAAAAA".toList, "hi there".toList]⟩
    = (Outcome.ok,
      { config := ⟨"000".toList, "irc.example.com".toList, 50⟩,
        servers := [("8ZZ".toList,
          ⟨"8ZZ".toList, "irc2.example.com".toList, "desc".toList, 1, some 7⟩)],
        nicks := [],
        users := [("8ZZAAAAAB".toList,
            ⟨"will".toList, 1, 1475024621, [], "will".toList, "h1".toList,
              "0".toList, "8ZZAAAAAB".toList, "Will".toList, [], 7, none⟩),
          ("000AAAAAA".toList,
            ⟨"ana".toList, 0, 1475024622, [], "ana".toList, "h2".toList,
              "0".toList, "000AAAAAA".toList, "Ana".toList, [], 7, some 3⟩)],
        opers := [], localServers := [7], channels := [] },
      [Effect.queue (Dest.user 3)
        ⟨"will!will@h1".toList, "PRIVMSG".toList,
          ["ana".toList, "hi there".toList]⟩]) := by
  have h := (privmsg_routing
    { config := ⟨"000".toList, "irc.example.com".toList, 50⟩,
      servers := [("8ZZ".toList,
        ⟨"8ZZ".toList, "irc2.example.com".toList, "desc".toList, 1, some 7⟩)],
      nicks := [],
      users := [("8ZZAAAAAB".toList,
          ⟨"will".toList, 1, 1475024621, [], "will".toList, "h1".toList,
            "0".toList, "8ZZAAAAAB".toList, "Will".toList, [], 7, none⟩),
        ("000AAAAAA".toList,
          ⟨"ana".toList, 0, 1475024622, [], "ana".toList, "h2".toList,
            "0".toList, "000AAAAAA".toList, "Ana".toList, [], 7, some 3⟩)],
      opers := [], localServers := [7], channels := [] }
    (lsInit 7 "8ZZ".toList "irc2.example.com".toList)
    ⟨"8ZZAAAAAB".toList, "PRIVMSG".toList,
      ["000AAAAAA".toList, "hi there".toList]⟩
    ⟨"will".toList, 1, 1475024621, [], "will".toList, "h1".toList,
      "0".toList, "8ZZAAAAAB".toList, "Will".toList, [], 7, none⟩
    ⟨"ana".toList, 0, 1475024622, [], "ana".toList, "h2".toList,
      "0".toList, "000AAAAAA".toList, "Ana".toList, [], 7, some 3⟩
    (by decide) (by decide) (by decide) (by decide) (by decide)).1 3 rfl
  rw [h]
  decide

theorem sjoinMembers_localServers (s : LSState) (key : Str) :
    ∀ (uids : List Str) (cb : Catbox),
      (sjoinMembers s key cb uids).2.localServers = cb.localServers := by
  intro uids
  induction uids with
  | nil => intro cb; rfl
  | cons u rest ih =>
    intro cb
    rw [sjoinMembers]
    split
    · rfl
    · split
      · rfl
      · exact ih _

/-- C6: a `SID` or `SJOIN` message that passes validation (is accepted and
applied) is propagated verbatim to every directly linked server except the
link it arrived on, and the handler queues nothing else to anyone. -/
theorem sid_sjoin_split_horizon (cb : Catbox) (s : LSState) (m : Message) :
    (isValidSID m.pfx = true →
      (lookupA cb.servers m.pfx).isNone = false →
      4 ≤ m.params.length →
      ∀ hop, parseDecInt 8 (m.params.getD 1 []) = some hop →
      isValidSID (m.params.getD 2 []) = true →
      (sidCommand cb s m).1 = Outcome.ok ∧
      (sidCommand cb s m).2.2 =
        (cb.localServers.filter fun i => i ≠ s.id).map fun i =>
          Effect.queue (Dest.server i) m) ∧
    ((lookupA cb.servers m.pfx).isNone = false →
      4 ≤ m.params.length →
      ∀ ts, parseDecInt 64 (m.params.getD 0 []) = some ts →
      ∀ cb2,
        sjoinMembers s (canonicalizeChannel (m.params.getD 1 []))
          (if (lookupA cb.channels
                (canonicalizeChannel (m.params.getD 1 []))).isSome then cb
            else
              { cb with
                  channels := insertA cb.channels
                    (canonicalizeChannel (m.params.getD 1 []))
                    { name := canonicalizeChannel (m.params.getD 1 []),
                      ts := ts, members := [] } })
          (splitSpaces
            (if 4 < m.params.length then m.params.getD 4 []
              else m.params.getD 3 [])) = (Outcome.ok, cb2) →
      (sjoinCommand cb s m).1 = Outcome.ok ∧
      (sjoinCommand cb s m).2.2 =
        (cb.localServers.filter fun i => i ≠ s.id).map fun i =>
          Effect.queue (Dest.server i) m) := by
  constructor
  · intro h1 h2 hlen hop hhop h5
    have h4 : ¬ m.params.length < 4 := by omega
    simp only [List.getD_eq_getElem?_getD] at hhop h5
    constructor <;>
      simp [sidCommand, h1, h2, h4, hhop, h5]
  · intro h2 hlen ts hts cb2 hmem
    have h4 : ¬ m.params.length < 4 := by omega
    simp only [List.getD_eq_getElem?_getD] at hts hmem
    have hls : cb2.localServers = cb.localServers := by
      have := sjoinMembers_localServers s
        (canonicalizeChannel (m.params.getD 1 []))
        (splitSpaces
          (if 4 < m.params.length then m.params.getD 4 []
            else m.params.getD 3 []))
        (if (lookupA cb.channels
              (canonicalizeChannel (m.params.getD 1 []))).isSome then cb
          else
            { cb with
                channels := insertA cb.channels
                  (canonicalizeChannel (m.params.getD 1 []))
                  { name := canonicalizeChannel (m.params.getD 1 []),
                    ts := ts, members := [] } })
      simp only [List.getD_eq_getElem?_getD] at this
      rw [hmem] at this
      split at this <;> exact this
    simp only [List.getD_eq_getElem?_getD] at hls
    constructor <;>
      simp [sjoinCommand, h2, h4, hts, hmem, hls]

/-- Witness for C6: a concrete accepted `SID` is forwarded exactly to the
other directly linked server. -/
theorem sid_sjoin_split_horizon_witness :
    (sidCommand
      { config := ⟨"000".toList, "irc.example.com".toList, 50⟩,
        servers := [("8ZZ".toList,
          ⟨"8ZZ".toList, "irc2.example.com".toList, "desc".toList, 1, some 7⟩)],
        nicks := [], users := [], opers := [], localServers := [7, 9],
        channels := [] }
      (lsInit 7 "8ZZ".toList "irc2.example.com".toList)
      ⟨"8ZZ".toList, "SID".toList,
        ["irc3.example.com".toList, "2".toList, "9ZQ".toList,
          "My Desc".toList]⟩).2.2
    = [Effect.queue (Dest.server 9)
        ⟨"8ZZ".toList, "SID".toList,
          ["irc3.example.com".toList, "2".toList, "9ZQ".toList,
            "My Desc".toList]⟩] := by
  have h := (sid_sjoin_split_horizon
    { config := ⟨"000".toList, "irc.example.com".toList, 50⟩,
      servers := [("8ZZ".toList,
        ⟨"8ZZ".toList, "irc2.example.com".toList, "desc".toList, 1, some 7⟩)],
      nicks := [], users := [], opers := [], localServers := [7, 9],
      channels := [] }
    (lsInit 7 "8ZZ".toList "irc2.example.com".toList)
    ⟨"8ZZ".toList, "SID".toList,
      ["irc3.example.com".toList, "2".toList, "9ZQ".toList,
        "My Desc".toList]⟩).1 (by decide) (by decide) (by decide)
    2 (by decide) (by decide)
  rw [h.2]
  decide

/-- C7: burst-completion discipline of `pingCommand`/`pongCommand`. A fresh
link starts bursting with neither milestone; both handlers preserve the
invariant that `Bursting` is set exactly while the `GotPING`/`GotPONG` pair is
incomplete; the operators are notified exactly when a handler clears the flag;
and whenever the two milestones are not both present after the handler, the
`Bursting` flag is exactly what it was before. -/
theorem burst_flag_discipline (cb : Catbox) (s : LSState) (m : Message) :
    (∀ i sid name, burstInv (lsInit i sid name)) ∧
    (burstInv s → burstInv (pingCommand cb s m).2.2.1) ∧
    (Effect.opersNotice (burstOverMsg s.name) ∈ (pingCommand cb s m).2.2.2 ↔
      (s.bursting = true ∧ (pingCommand cb s m).2.2.1.bursting = false)) ∧
    (¬((pingCommand cb s m).2.2.1.gotPING = true ∧
        (pingCommand cb s m).2.2.1.gotPONG = true) →
      (pingCommand cb s m).2.2.1.bursting = s.bursting) ∧
    (burstInv s → burstInv (pongCommand cb s m).2.2.1) ∧
    (Effect.opersNotice (burstOverMsg s.name) ∈ (pongCommand cb s m).2.2.2 ↔
      (s.bursting = true ∧ (pongCommand cb s m).2.2.1.bursting = false)) ∧
    (¬((pongCommand cb s m).2.2.1.gotPING = true ∧
        (pongCommand cb s m).2.2.1.gotPONG = true) →
      (pongCommand cb s m).2.2.1.bursting = s.bursting) := by
  refine ⟨?_, ?_, ?_, ?_, ?_, ?_, ?_⟩
  · intro i sid name
    simp [burstInv, lsInit]
  all_goals
    first
    | (rw [pingCommand]
       dsimp only
       repeat' split
       all_goals simp_all [burstInv]
       all_goals try tauto
       all_goals try (rw [lsQuit]; split <;> simp)
       all_goals (intros
                  cases hb : s.bursting <;> cases hp : s.gotPING <;>
                    cases hq : s.gotPONG <;> simp_all))
    | (rw [pongCommand]
       dsimp only
       repeat' split
       all_goals simp_all [burstInv]
       all_goals try tauto
       all_goals try (rw [lsQuit]; split <;> simp)
       all_goals (intros
                  cases hb : s.bursting <;> cases hp : s.gotPING <;>
                    cases hq : s.gotPONG <;> simp_all))

/-- Witness for C7: a concrete burst-ending `PONG` preserves the burst
discipline. -/
theorem burst_flag_discipline_witness :
    burstInv (pongCommand
      { config := ⟨"000".toList, "irc.example.com".toList, 50⟩,
        servers := [("9ZQ".toList,
          ⟨"9ZQ".toList, "irc2.example.com".toList, "desc".toList, 1, some 7⟩)],
        nicks := [], users := [], opers := [], localServers := [7],
        channels := [] }
      ⟨7, "9ZQ".toList, "irc2.example.com".toList, true, false, true⟩
      ⟨"9ZQ".toList, "PONG".toList,
        ["irc2.example.com".toList, "000".toList]⟩).2.2.1 :=
  (burst_flag_discipline
    { config := ⟨"000".toList, "irc.example.com".toList, 50⟩,
      servers := [("9ZQ".toList,
        ⟨"9ZQ".toList, "irc2.example.com".toList, "desc".toList, 1, some 7⟩)],
      nicks := [], users := [], opers := [], localServers := [7],
      channels := [] }
    ⟨7, "9ZQ".toList, "irc2.example.com".toList, true, false, true⟩
    ⟨"9ZQ".toList, "PONG".toList,
      ["irc2.example.com".toList, "000".toList]⟩).2.2.2.2.1 (by simp [burstInv])

theorem takeWhile_append_eq (f : Char → Bool) :
    ∀ (p : Str) (r : Char) (rs : Str), (∀ c ∈ p, f c = true) → f r = false →
      (p ++ r :: rs).takeWhile f = p ∧ (p ++ r :: rs).dropWhile f = r :: rs := by
  intro p
  induction p with
  | nil =>
    intro r rs _ hr
    simp [List.takeWhile, List.dropWhile, hr]
  | cons c p' ih =>
    intro r rs h hr
    have hc : f c = true := h c (by simp)
    have := ih r rs (fun x hx => h x (by simp [hx])) hr
    simp [List.takeWhile_cons, List.dropWhile_cons, hc, this.1, this.2]

theorem parsePfxLoop_append :
    ∀ (p : Str) (rest : Str),
      (∀ c ∈ p, c ≠ ' ' ∧ c ≠ '\x00' ∧ c ≠ '\n' ∧ c ≠ '\r') →
      parsePfxLoop (p ++ ' ' :: rest) = some (p, rest) := by
  intro p
  induction p with
  | nil =>
    intro rest _
    simp [parsePfxLoop]
  | cons c p' ih =>
    intro rest h
    have hc := h c (by simp)
    rw [List.cons_append, parsePfxLoop]
    rw [if_neg hc.1, if_neg (by simp [hc.2.1, hc.2.2.1, hc.2.2.2])]
    rw [ih rest (fun x hx => h x (by simp [hx]))]
    rfl

theorem parseCommandLoop_append :
    ∀ (cmd : Str) (r : Char) (rs : Str),
      (∀ c ∈ cmd, isCommandChar c = true) → (r = ' ' ∨ r = '\r') →
      parseCommandLoop (cmd ++ r :: rs) = some (cmd, r :: rs) := by
  intro cmd
  induction cmd with
  | nil =>
    intro r rs _ hr
    have hrc : isCommandChar r = false := by
      rcases hr with h | h <;> subst h <;> decide
    rw [List.nil_append, parseCommandLoop, if_neg (by simp [hrc])]
    rw [if_pos (by rcases hr with h | h <;> subst h <;> simp)]
  | cons c cmd' ih =>
    intro r rs h hr
    have hc := h c (by simp)
    rw [List.cons_append, parseCommandLoop, if_pos (by simp [hc])]
    rw [ih r rs (fun x hx => h x (by simp [hx])) hr]
    rfl

theorem parseParam_trailing (p : Str) (rs : Str)
    (hp : ∀ c ∈ p, isParamEnd c = false) :
    parseParam (' ' :: ':' :: (p ++ '\r' :: rs)) = some (p, '\r' :: rs) := by
  have hspan := takeWhile_append_eq (fun ch => !isParamEnd ch) p '\r' rs
    (fun c hc => by simp [hp c hc]) (by decide)
  rw [parseParam, if_neg (by simp), if_pos rfl,
    if_neg (by simp), hspan.1, hspan.2]

theorem parseParam_middle (c0 : Char) (p' : Str) (r : Char) (rs : Str)
    (hc0 : c0 ≠ ':')
    (hp : ∀ c ∈ c0 :: p', isParamEnd c = false ∧ c ≠ ' ')
    (hr : isParamEnd r = true ∨ r = ' ') :
    parseParam (' ' :: ((c0 :: p') ++ r :: rs)) = some (c0 :: p', r :: rs) := by
  have hspan := takeWhile_append_eq (fun ch => !(isParamEnd ch || ch = ' '))
    (c0 :: p') r rs
    (fun c hc => by
      have := hp c hc
      simp [this.1, this.2])
    (by rcases hr with h | h <;> simp [h])
  rw [List.cons_append, parseParam, if_neg (by simp), if_neg hc0]
  rw [show c0 :: (p' ++ r :: rs) = (c0 :: p') ++ r :: rs from rfl]
  rw [hspan.1, hspan.2]
  rw [if_neg (by simp)]

theorem parseParamLast_trailing (p : Str) (rs : Str)
    (hp : ∀ c ∈ p, isParamEnd c = false) :
    parseParamLast (' ' :: ':' :: (p ++ '\r' :: rs)) = some (p, '\r' :: rs) := by
  have hspan := takeWhile_append_eq (fun ch => !isParamEnd ch) p '\r' rs
    (fun c hc => by simp [hp c hc]) (by decide)
  rw [parseParamLast, if_neg (by simp), if_pos rfl,
    if_neg (by simp), hspan.1, hspan.2]

theorem parseParamLast_bare (c0 : Char) (p' : Str) (rs : Str)
    (hc0 : c0 ≠ ':')
    (hp : ∀ c ∈ c0 :: p', isParamEnd c = false) :
    parseParamLast (' ' :: ((c0 :: p') ++ '\r' :: rs))
      = some (c0 :: p', '\r' :: rs) := by
  have hspan := takeWhile_append_eq (fun ch => !isParamEnd ch) (c0 :: p') '\r' rs
    (fun c hc => by simp [hp c hc]) (by decide)
  rw [List.cons_append, parseParamLast, if_neg (by simp), if_neg hc0]
  rw [show c0 :: (p' ++ '\r' :: rs) = (c0 :: p') ++ '\r' :: rs from rfl]
  rw [hspan.1, hspan.2]

theorem encodeParamList_shape (ps : List Str) (s : Str)
    (h : encodeParamList ps = some s) :
    (ps = [] ∧ s = []) ∨ ∃ t, s = ' ' :: t := by
  match ps with
  | [] =>
    rw [encodeParamList] at h
    exact Or.inl ⟨rfl, (Option.some_inj.mp h).symm⟩
  | p :: rest =>
    rw [encodeParamList] at h
    right
    split at h
    · split at h
      · exact ⟨_, (Option.some_inj.mp h).symm⟩
      · exact absurd h (by simp)
    · rcases Option.map_eq_some'.mp h with ⟨t, _, ht⟩
      exact ⟨_, ht.symm⟩

theorem parseParamsLoop_encode :
    ∀ (ps : List Str) (k : Nat) (s : Str),
      ps.length ≤ k + 1 →
      (∀ p ∈ ps, ∀ c ∈ p, isParamEnd c = false) →
      encodeParamList ps = some s →
      parseParamsLoop k (s ++ '\r' :: '\n' :: []) = some (ps, ['\r', '\n']) := by
  intro ps
  induction ps with
  | nil =>
    intro k s _ _ henc
    rw [encodeParamList] at henc
    have hs : s = [] := (Option.some_inj.mp henc).symm
    subst hs
    rw [List.nil_append]
    simp [parseParamsLoop.eq_def]
  | cons p rest ih =>
    intro k s hlen hctl henc
    have hpctl : ∀ c ∈ p, isParamEnd c = false := hctl p (by simp)
    rw [encodeParamList] at henc
    by_cases hcolon : (hasColonOrSpace p || p.isEmpty) = true
    · rw [if_pos hcolon] at henc
      by_cases hrest : rest.isEmpty
      · rw [if_pos hrest] at henc
        have hs : s = ' ' :: ':' :: p := (Option.some_inj.mp henc).symm
        have hrest2 : rest = [] := List.isEmpty_iff.mp hrest
        subst hs
        subst hrest2
        have harr : (' ' :: ':' :: p) ++ '\r' :: '\n' :: []
            = ' ' :: ':' :: (p ++ '\r' :: '\n' :: []) := by simp
        rw [harr, parseParamsLoop.eq_def]
        match k with
        | 0 =>
          dsimp only
          rw [if_neg (by simp)]
          rw [parseParamLast_trailing p ['\n'] hpctl]
          rfl
        | k' + 1 =>
          dsimp only
          rw [if_neg (by simp)]
          rw [parseParam_trailing p ['\n'] hpctl]
          simp [parseParamsLoop.eq_def]
      · rw [if_neg hrest] at henc
        exact absurd henc (by simp)
    · rw [if_neg hcolon] at henc
      rcases Option.map_eq_some'.mp henc with ⟨s', hs', hmap⟩
      have hs : s = ' ' :: p ++ s' := hmap.symm
      subst hs
      simp only [Bool.or_eq_true, not_or, Bool.not_eq_true] at hcolon
      have hpne : p ≠ [] := by
        intro he
        subst he
        simp at hcolon
      have hnocs : ∀ c ∈ p, c ≠ ':' ∧ c ≠ ' ' := by
        intro c hc
        have hany := hcolon.1
        rw [hasColonOrSpace] at hany
        have h2 := List.any_eq_false.mp hany c hc
        simp at h2
        exact h2
      obtain ⟨c0, p', rfl⟩ := List.exists_cons_of_ne_nil hpne
      have harr : (' ' :: (c0 :: p') ++ s') ++ '\r' :: '\n' :: []
          = ' ' :: ((c0 :: p') ++ (s' ++ '\r' :: '\n' :: [])) := by simp
      rw [harr, parseParamsLoop.eq_def]
      have hc0 : c0 ≠ ':' := (hnocs c0 (by simp)).1
      have hmid : ∀ c ∈ c0 :: p', isParamEnd c = false ∧ c ≠ ' ' := by
        intro c hc
        exact ⟨hpctl c hc, (hnocs c hc).2⟩
      rcases encodeParamList_shape rest s' hs' with ⟨hr0, hs0⟩ | ⟨t, hst⟩
      · subst hr0
        subst hs0
        match k with
        | 0 =>
          dsimp only
          rw [if_neg (by simp)]
          rw [List.nil_append]
          rw [parseParamLast_bare c0 p' ['\n'] hc0 hpctl]
          rfl
        | k' + 1 =>
          dsimp only
          rw [if_neg (by simp)]
          rw [List.nil_append]
          rw [parseParam_middle c0 p' '\r' ['\n'] hc0 hmid (Or.inl (by decide))]
          simp [parseParamsLoop.eq_def]
      · subst hst
        match k with
        | 0 =>
          exfalso
          simp at hlen
          subst hlen
          rw [encodeParamList] at hs'
          simp at hs'
        | k' + 1 =>
          have harr2 : (' ' :: t) ++ '\r' :: '\n' :: []
              = ' ' :: (t ++ '\r' :: '\n' :: []) := by simp
          rw [harr2]
          dsimp only
          rw [if_neg (by simp)]
          rw [parseParam_middle c0 p' ' ' (t ++ '\r' :: '\n' :: []) hc0 hmid
            (Or.inr rfl)]
          have hih := ih k' (' ' :: t) (by simp at hlen ⊢; omega)
            (fun q hq => hctl q (by simp [hq])) hs'
          rw [harr2] at hih
          dsimp only
          rw [hih]

theorem validCmd_spec (cmd : Str) (h : validCmd cmd = true) :
    cmd ≠ [] ∧ (∀ c ∈ cmd, isCommandChar c = true)
      ∧ cmd.map toUpperChar = cmd := by
  rw [validCmd, Bool.and_eq_true] at h
  obtain ⟨hne, hall⟩ := h
  have hs := List.all_eq_true.mp hall
  refine ⟨by simpa using hne, ?_, ?_⟩
  · intro c hc
    have h2 := hs c hc
    rw [Bool.and_eq_true] at h2
    exact h2.1
  · apply (List.map_congr_left ?_).trans (List.map_id _)
    intro c hc
    have h2 := hs c hc
    rw [Bool.and_eq_true] at h2
    have h4 : toUpperChar c = c := by simpa using h2.2
    simp [h4]

theorem parseCommand_append (cmd : Str) (r : Char) (rs : Str)
    (h1 : cmd ≠ []) (h2 : ∀ c ∈ cmd, isCommandChar c = true)
    (h3 : cmd.map toUpperChar = cmd) (hr : r = ' ' ∨ r = '\r') :
    parseCommand (cmd ++ r :: rs) = some (cmd, r :: rs) := by
  rw [parseCommand, parseCommandLoop_append cmd r rs h2 hr]
  dsimp only
  rw [if_neg (by simpa using h1), h3]

theorem encodeParamList_total :
    ∀ ps : List Str, colonSpaceOK ps = true →
      (encodeParamList ps).isSome = true := by
  intro ps
  induction ps with
  | nil =>
    intro _
    rw [encodeParamList]
    rfl
  | cons p rest ih =>
    intro h
    match rest with
    | [] =>
      rw [encodeParamList]
      split
      · simp
      · rw [encodeParamList]
        rfl
    | q :: rest' =>
      rw [colonSpaceOK, Bool.and_eq_true] at h
      have hx : (hasColonOrSpace p || p.isEmpty) = false := by
        have h5 := h.1
        rwa [Bool.not_eq_true'] at h5
      rw [encodeParamList, if_neg (by simp [hx])]
      have := ih h.2
      rcases Option.isSome_iff_exists.mp this with ⟨t, ht⟩
      rw [ht]
      rfl

/-- C4: for every well-formed message (valid prefix and command, at most 15
parameters, parameters free of NUL/CR/LF), if encoding succeeds (no
truncation, `:`/space/emptiness confined to the last parameter), parsing the
encoded line succeeds and returns the message unchanged; and for messages
whose parameters place `:`/space/emptiness only in the last position the
parameter encoder never fails. -/
theorem encode_then_parse (m : Message) :
    (∀ l, wellFormed m = true → Message.Encode m = some l →
      ParseMessage l = some m) ∧
    (colonSpaceOK m.params = true → (encodeParamList m.params).isSome = true) := by
  constructor
  · intro l hwf henc
    rw [wellFormed] at hwf
    simp only [Bool.and_eq_true] at hwf
    obtain ⟨⟨⟨hpfx, hcmd⟩, hlen15⟩, hctl⟩ := hwf
    obtain ⟨hcne, hcchars, hcupper⟩ := validCmd_spec m.command hcmd
    have hctl2 : ∀ p ∈ m.params, ∀ c ∈ p, isParamEnd c = false := by
      intro p hp c hc
      have h1 := List.all_eq_true.mp hctl p hp
      rw [noCtl] at h1
      have h2 := List.all_eq_true.mp h1 c hc
      simpa using h2
    rw [Message.Encode] at henc
    rcases hps : encodeParamList m.params with _ | ps
    · rw [hps] at henc
      exact absurd henc (by simp)
    · rw [hps] at henc
      dsimp only at henc
      by_cases hlenok : MaxLineLength <
          ((if m.pfx.isEmpty then ([] : Str) else ':' :: m.pfx ++ [' '])
            ++ m.command ++ ps ++ ['\r', '\n']).length
      · rw [if_pos hlenok] at henc
        exact absurd henc (by simp)
      · rw [if_neg hlenok] at henc
        have hl : l = (if m.pfx.isEmpty then [] else ':' :: m.pfx ++ [' '])
            ++ m.command ++ ps ++ ['\r', '\n'] := (Option.some_inj.mp henc).symm
        have hshape := encodeParamList_shape m.params ps hps
        have htail : ∃ r rs,
            ps ++ ['\r', '\n'] = r :: rs ∧ (r = ' ' ∨ r = '\r') := by
          rcases hshape with ⟨_, hps0⟩ | ⟨t, hpst⟩
          · subst hps0
            exact ⟨'\r', ['\n'], rfl, Or.inr rfl⟩
          · subst hpst
            exact ⟨' ', t ++ ['\r', '\n'], rfl, Or.inl rfl⟩
        obtain ⟨r, rs, hrs, hror⟩ := htail
        have hcmdparse : parseCommand (m.command ++ (ps ++ ['\r', '\n']))
            = some (m.command, ps ++ ['\r', '\n']) := by
          rw [hrs]
          exact parseCommand_append m.command r rs hcne hcchars hcupper hror
        have hparams : parseParamsLoop 14 (ps ++ ['\r', '\n'])
            = some (m.params, ['\r', '\n']) :=
          parseParamsLoop_encode m.params 14 ps (by simpa using hlen15) hctl2 hps
        have hlok : ¬ (MaxLineLength < l.length) := by
          rw [hl]
          exact hlenok
        obtain ⟨c1, cmd', hcmd'⟩ := List.exists_cons_of_ne_nil hcne
        have hc1 : isCommandChar c1 = true := hcchars c1 (by rw [hcmd']; simp)
        have hc1ne : ¬ (c1 = ':') := by
          intro he
          rw [he] at hc1
          exact absurd hc1 (by decide)
        by_cases hpfxnil : m.pfx = []
        · have hl2 : l = c1 :: (cmd' ++ (ps ++ ['\r', '\n'])) := by
            rw [hl, if_pos (by simp [hpfxnil]), hcmd']
            simp
          rw [ParseMessage.eq_def, if_neg hlok, hl2]
          dsimp only
          rw [if_neg hc1ne]
          dsimp only
          have hcp2 := hcmdparse
          rw [hcmd'] at hcp2
          simp only [List.cons_append] at hcp2
          rw [hcp2]
          dsimp only
          rw [if_neg (by simp)]
          rw [hparams]
          dsimp only
          rw [if_pos rfl]
          rw [← hcmd']
          cases m
          simp_all
        · have hpchars : ∀ c ∈ m.pfx,
              c ≠ ' ' ∧ c ≠ '\x00' ∧ c ≠ '\n' ∧ c ≠ '\r' := by
            intro c hc
            rw [validPfx, Bool.or_eq_true] at hpfx
            rcases hpfx with h1 | h1
            · exact absurd (List.isEmpty_iff.mp h1) hpfxnil
            · have h2 := List.all_eq_true.mp h1 c hc
              simp only [Bool.not_eq_true', Bool.or_eq_false_iff,
                decide_eq_false_iff_not] at h2
              exact ⟨h2.1.1.1, h2.1.1.2, h2.1.2, h2.2⟩
          have hl2 : l = ':' :: (m.pfx ++ ' ' ::
              (m.command ++ (ps ++ ['\r', '\n']))) := by
            rw [hl, if_neg (by simp [hpfxnil])]
            simp
          rw [ParseMessage.eq_def, if_neg hlok, hl2]
          dsimp only
          rw [if_pos rfl]
          rw [parsePfx, if_neg (by simp)]
          rw [parsePfxLoop_append m.pfx _ hpchars]
          dsimp only
          rw [if_neg (by simpa using hpfxnil)]
          dsimp only
          rw [if_neg (by simp [hcne])]
          dsimp only
          rw [hcmdparse]
          dsimp only
          rw [if_neg (by simp)]
          rw [hparams]
          dsimp only
          rw [if_pos rfl]
  · exact encodeParamList_total m.params

/-- Witness for C4: a concrete message round-trips through Encode and
ParseMessage. -/
theorem encode_then_parse_witness :
    ParseMessage ":irc PRIVMSG bob :hi there\r\n".toList
      = some ⟨"irc".toList, "PRIVMSG".toList,
          ["bob".toList, "hi there".toList]⟩ :=
  (encode_then_parse ⟨"irc".toList, "PRIVMSG".toList,
    ["bob".toList, "hi there".toList]⟩).1
    ":irc PRIVMSG bob :hi there\r\n".toList (by decide) (by decide)
